import Mathlib

/-!
Verification development for the UnitWorld profiling module
(`src/Vega/src/Debug/Instrumentor.h`): a Chrome-trace-event profiler with a
process-wide trace sink (`Instrumentor`) and a scoped timer
(`InstrumentationTimer`).

Shallow embedding conventions:
* The sink's observable state (`m_CurrentSession`, the open `std::ofstream`,
  the file system it writes to, and the messages sent to the logging
  collaborator) is a `SinkState`.  Each public operation is a state
  transformer translated line by line from the C++ body.  Every externally
  visible action (file open, stream write, stream close, log message) is also
  recorded in an effect `trace`, so that ordering claims can be stated.
* `std::chrono` values: `steady_clock` timestamps are modelled as integer
  nanosecond counts (the libstdc++ tick unit).  `FloatingPointMicroseconds`
  (a `duration<double, micro>`) is modelled as an exact rational; C++ `double`
  rounding is not modelled, which is faithful for the magnitudes involved.
* `std::thread::id` streams as an unsigned number on the reference
  implementation; it is modelled as a `Nat`.
* Delimiter characters of the output format (braces, quotes, backslash) are
  named constants defined via `Char.ofNat`, so every comparison against them
  in the development is on explicit code points.
-/

/-! ### Characters and decimal rendering -/

def dquote : Char := Char.ofNat 34

def squote : Char := Char.ofNat 39

def bslash : Char := Char.ofNat 92

def lbrace : Char := Char.ofNat 123

def rbrace : Char := Char.ofNat 125

/-- The decimal digit character for `d % 10`. -/
def digitChar (d : Nat) : Char :=
  match d % 10 with
  | 0 => '0' | 1 => '1' | 2 => '2' | 3 => '3' | 4 => '4'
  | 5 => '5' | 6 => '6' | 7 => '7' | 8 => '8' | _ => '9'

/-- Decimal digits of `n`, most significant first; fuel-structured so that it
computes by kernel reduction.  `natChars` supplies fuel `n + 1`, which always
suffices since the digit count of `n` is at most `n + 1`. -/
def natCharsGo : Nat → Nat → List Char
  | 0, _ => []
  | fuel + 1, n =>
    if n < 10 then [digitChar n]
    else natCharsGo fuel (n / 10) ++ [digitChar (n % 10)]

/-- Decimal rendering of a natural number, as C++ `operator<<` prints an
unsigned integer. -/
def natChars (n : Nat) : List Char := natCharsGo (n + 1) n

/-- Decimal rendering of an integer, as C++ `operator<<` prints a signed
integer. -/
def intChars (i : Int) : List Char :=
  (if i < 0 then ['-'] else []) ++ natChars i.natAbs

/-- The three fractional digits printed for a value of `m` thousandths,
`m < 1000`: hundreds, tens, ones — i.e. a zero-padded 3-digit field. -/
def pad3 (m : Nat) : List Char :=
  [digitChar (m / 100), digitChar (m / 10), digitChar m]

/-- The value `1000 * q` rounded to the nearest integer, ties to even — the
rounding `printf`-style fixed formatting applies to the exact value of a
`double` when printing three decimals.  Computed over the fraction's fields
(`q = q.num / q.den`, `q.den > 0`): `f` is `⌊1000q⌋`, and comparing twice the
remainder `2*(1000*q.num - q.den*f)` with `q.den` decides whether the
fractional part is below, above, or exactly one half. -/
def thousandths (q : ℚ) : Int :=
  let n : Int := q.num * 1000
  let d : Int := (q.den : Int)
  let f : Int := n.fdiv d
  let r2 : Int := 2 * (n - d * f)
  if r2 < d then f
  else if d < r2 then f + 1
  else if f % 2 = 0 then f else f + 1

/-- Rendering of a `double` with value `q` under
`std::setprecision(3) << std::fixed`: the nearest-thousandth value, printed
with exactly three digits after the decimal point. -/
def fmtFixed3 (q : ℚ) : String :=
  let n : Int := thousandths q
  (if n < 0 then "-" else "") ++ ⟨natChars (n.natAbs / 1000)⟩ ++ "." ++ ⟨pad3 (n.natAbs % 1000)⟩

/-! ### `ProfileResult` and the serialized span record -/

/-- `ProfileResult` (Instrumentor.h lines 18–25).  `Start` is the
`FloatingPointMicroseconds` count (a `double`, modelled exactly as `ℚ`);
`ElapsedTime` is the `std::chrono::microseconds` count (an integer). -/
structure ProfileResult where
  Name : String
  Start : ℚ
  ElapsedTime : Int
  ThreadID : Nat
deriving DecidableEq

/-- `std::replace(name.begin(), name.end(), '"', '\'')` on the span name:
every double quote becomes a single quote; all other characters are kept. -/
def escapeName (s : String) : String :=
  ⟨s.data.map (fun c => if c = dquote then squote else c)⟩

/-- The `"dur"` field text: `result.ElapsedTime.count()` is an *integer*, so
stream insertion prints it as a plain integer (`std::fixed` and
`std::setprecision` govern floating-point insertions only). -/
def durStr (r : ProfileResult) : String := ⟨intChars r.ElapsedTime⟩

/-- The `"ts"` field text: `result.Start.count()` is a `double`, printed under
`std::setprecision(3) << std::fixed`. -/
def tsStr (r : ProfileResult) : String := fmtFixed3 r.Start

/-- The `"tid"` field text: the thread id under its stream insertion. -/
def tidStr (r : ProfileResult) : String := ⟨natChars r.ThreadID⟩

/-- The span-record JSON object built by `Instrumentor::WriteProfile`
(lines 71–87), without the leading comma. -/
def recordObj (r : ProfileResult) : String :=
  "\x7b\"cat\":\"function\"," ++
  "\"dur\":" ++ durStr r ++ "," ++
  "\"name\":\"" ++ escapeName r.Name ++ "\"," ++
  "\"ph\":\"X\"," ++
  "\"pid\":0," ++
  "\"tid\":" ++ tidStr r ++ "," ++
  "\"ts\":" ++ tsStr r ++
  "\x7d"

/-- The full text appended per span: `json << ",{" ...` — a comma followed by
the record object. -/
def profileJson (r : ProfileResult) : String := "," ++ recordObj r

/-- `Instrumentor::WriteHeader` output. -/
def headerStr : String := "\x7b\"otherData\": \x7b\x7d,\"traceEvents\":[\x7b\x7d"

/-- `Instrumentor::WriteFooter` output. -/
def footerStr : String := "]\x7d"

/-- The warning `LOGW` message of `BeginSession` (arguments concatenated). -/
def beginWarnMsg (name old : String) : String :=
  "Instrumentor::BeginSession(" ++ ⟨[squote]⟩ ++ name ++ ⟨[squote]⟩ ++
  ") when session " ++ ⟨[squote]⟩ ++ old ++ ⟨[squote]⟩ ++ " already open."

/-- The error `LOGE` message of `BeginSession` (arguments concatenated). -/
def openErrMsg (path : String) : String :=
  "Instrumentor could not open results file " ++ ⟨[squote]⟩ ++ path ++ ⟨[squote]⟩ ++ "."

/-! ### The trace sink state machine -/

/-- One externally visible action of the sink: a file open (with its success
bit), a write to the currently open stream (tagged with the stream's target
path), a stream close, or a message to the logging collaborator. -/
inductive Effect where
  | fsOpen (path : String) (ok : Bool)
  | fsWrite (target : Option String) (s : String)
  | fsClose
  | logW (msg : String)
  | logE (msg : String)
deriving DecidableEq

/-- Observable state of the `Instrumentor` singleton together with the file
system it writes to and the effect trace it has produced. -/
structure SinkState where
  currentSession : Option String
  openPath : Option String
  files : List (String × String)
  trace : List Effect
deriving DecidableEq

/-- The freshly constructed `Instrumentor` (`m_CurrentSession = nullptr`),
with an empty file system and no effects yet. -/
def initState : SinkState :=
  { currentSession := none, openPath := none, files := [], trace := [] }

/-- Association-list lookup in the modelled file system. -/
def lookFS (p : String) : List (String × String) → Option String
  | [] => none
  | (q, v) :: t => if q = p then some v else lookFS p t

/-- Set (or create) the contents of path `p`. -/
def setFS (p v : String) : List (String × String) → List (String × String)
  | [] => [(p, v)]
  | (q, w) :: t => if q = p then (p, v) :: t else (q, w) :: setFS p v t

/-- `m_OutputStream << s` — appends to the open stream's file; writing to a
closed stream has no observable effect. -/
def doWrite (s : String) (st : SinkState) : SinkState :=
  { st with
    files :=
      match st.openPath with
      | some p => setFS p ((lookFS p st.files).getD "" ++ s) st.files
      | none => st.files,
    trace := st.trace ++ [Effect.fsWrite st.openPath s] }

/-- `m_OutputStream.open(filepath)` — on success the file is created or
truncated and becomes the stream's target; on failure nothing changes. -/
def doOpen (path : String) (ok : Bool) (st : SinkState) : SinkState :=
  if ok then
    { st with
      openPath := some path,
      files := setFS path "" st.files,
      trace := st.trace ++ [Effect.fsOpen path true] }
  else
    { st with trace := st.trace ++ [Effect.fsOpen path false] }

/-- `m_OutputStream.close()`. -/
def doClose (st : SinkState) : SinkState :=
  { st with openPath := none, trace := st.trace ++ [Effect.fsClose] }

/-- `LOGW(...)`. -/
def doLogW (m : String) (st : SinkState) : SinkState :=
  { st with trace := st.trace ++ [Effect.logW m] }

/-- `LOGE(...)`. -/
def doLogE (m : String) (st : SinkState) : SinkState :=
  { st with trace := st.trace ++ [Effect.logE m] }

/-- `Instrumentor::InternalEndSession` (lines 117–124): if a session is open,
write the footer, close the stream, and delete the session; otherwise do
nothing. -/
def internalEndSession (st : SinkState) : SinkState :=
  match st.currentSession with
  | some _ =>
    { doClose (doWrite footerStr st) with currentSession := none }
  | none => st

/-- `Instrumentor::EndSession` (lines 65–69). -/
def endSession (st : SinkState) : SinkState := internalEndSession st

/-- `Instrumentor::BeginSession` (lines 44–63).  `ok` models whether
`m_OutputStream.open(filepath)` succeeds (`is_open()` afterwards). -/
def beginSession (name path : String) (ok : Bool) (st : SinkState) : SinkState :=
  let st1 :=
    match st.currentSession with
    | some old => internalEndSession (doLogW (beginWarnMsg name old) st)
    | none => st
  let st2 := doOpen path ok st1
  if ok then
    doWrite headerStr { st2 with currentSession := some name }
  else
    doLogE (openErrMsg path) st2

/-- `Instrumentor::WriteProfile` (lines 71–94): the record text is built
unconditionally; it is appended (and flushed) only when a session is open. -/
def writeProfile (r : ProfileResult) (st : SinkState) : SinkState :=
  if st.currentSession.isSome then doWrite (profileJson r) st else st

/-- A call into the sink's public interface. -/
inductive Cmd where
  | beginS (name path : String) (ok : Bool)
  | endS
  | write (r : ProfileResult)
deriving DecidableEq

def step (st : SinkState) : Cmd → SinkState
  | Cmd.beginS name path ok => beginSession name path ok st
  | Cmd.endS => endSession st
  | Cmd.write r => writeProfile r st

/-- Run a sequence of calls against the freshly constructed sink. -/
def run (cmds : List Cmd) : SinkState := cmds.foldl step initState

/-! ### The scoped timer -/

/-- The `ProfileResult` forwarded by `InstrumentationTimer::Stop`
(lines 144–153) for a timer named `name` started at `startNs` nanoseconds and
stopped at `endNs` nanoseconds on thread `tid`:
`highResStart` is the start expressed in (floating-point) microseconds, and
`elapsedTime` is the difference of the two timestamps after each is
`time_point_cast` (truncated toward zero) to whole microseconds. -/
def timerStop (name : String) (startNs endNs : Int) (tid : Nat) : ProfileResult :=
  { Name := name,
    Start := (startNs : ℚ) / 1000,
    ElapsedTime := endNs.tdiv 1000 - startNs.tdiv 1000,
    ThreadID := tid }

/-- Lifecycle events of one `InstrumentationTimer`: an explicit `Stop()` call,
or the destructor running. -/
inductive TimerEvent where
  | stopCall
  | destroy
deriving DecidableEq

/-- One lifecycle step over `(m_Stopped, number of records forwarded so far)`.
`Stop()` (lines 144–153) forwards a record to `WriteProfile` unconditionally
and sets `m_Stopped`; the destructor (lines 138–142) calls `Stop()` only when
`m_Stopped` is false. -/
def timerStep : Bool × Nat → TimerEvent → Bool × Nat
  | (_, k), TimerEvent.stopCall => (true, k + 1)
  | (st, k), TimerEvent.destroy => if st then (st, k) else (true, k + 1)

/-- Run a timer lifecycle from construction (`m_Stopped = false`, no records
forwarded). -/
def timerRun (evs : List TimerEvent) : Bool × Nat :=
  evs.foldl timerStep (false, 0)

/-! ### A JSON syntax checker

Used to state the spec's "valid JSON" clauses.  It is a plain recognizer for
RFC-8259 JSON syntax over a character list, fuel-structured so that it
evaluates by kernel reduction.  (Of the escape forms it accepts the eight
single-character escapes; `\uXXXX` is not accepted — the serializer never
emits any escape sequence, so this strictness does not weaken any
validity theorem, and every counterexample below is invalid for RFC 8259
itself, not merely for this checker.) -/

def wsChar (c : Char) : Bool :=
  c.toNat = 32 || c.toNat = 9 || c.toNat = 10 || c.toNat = 13

def skipWs (l : List Char) : List Char := l.dropWhile wsChar

/-- The single-character escapes JSON allows after a backslash. -/
def escOk (e : Char) : Bool :=
  e = dquote || e = bslash || e = '/' || e = 'b' || e = 'f' ||
  e = 'n' || e = 'r' || e = 't'

/-- Consume the remainder of a JSON string (the opening quote already read). -/
def parseStringRest : List Char → Option (List Char)
  | [] => none
  | c :: cs =>
    if c = dquote then some cs
    else if c = bslash then
      match cs with
      | e :: cs2 => if escOk e then parseStringRest cs2 else none
      | [] => none
    else if 32 ≤ c.toNat then parseStringRest cs
    else none

/-- Consume one or more decimal digits. -/
def parseDigits : List Char → Option (List Char)
  | c :: cs => if c.isDigit then some (cs.dropWhile Char.isDigit) else none
  | [] => none

/-- Consume the integer part of a JSON number: `0`, or a nonzero digit
followed by digits. -/
def parseIntPart : List Char → Option (List Char)
  | [] => none
  | c :: cs =>
    if c = '0' then some cs
    else if c.isDigit then some (cs.dropWhile Char.isDigit)
    else none

/-- Consume an optional fraction part (`.` and one or more digits). -/
def parseFrac : List Char → Option (List Char)
  | c :: cs => if c = '.' then parseDigits cs else some (c :: cs)
  | [] => some []

/-- Consume an optional exponent part. -/
def parseExp : List Char → Option (List Char)
  | c :: cs =>
    if c = 'e' || c = 'E' then
      match cs with
      | s :: cs2 => if s = '+' || s = '-' then parseDigits cs2 else parseDigits (s :: cs2)
      | [] => none
    else some (c :: cs)
  | [] => some []

/-- Consume a JSON number. -/
def parseNumber (l : List Char) : Option (List Char) :=
  let l1 := match l with
    | c :: cs => if c = '-' then cs else c :: cs
    | [] => []
  match parseIntPart l1 with
  | some l2 =>
    match parseFrac l2 with
    | some l3 => parseExp l3
    | none => none
  | none => none

/-- Match a literal character sequence. -/
def dropLit : List Char → List Char → Option (List Char)
  | [], l => some l
  | c :: cs, x :: xs => if c = x then dropLit cs xs else none
  | _ :: _, [] => none

/-- JSON recognizer, structural on the fuel argument.  `mode 0` consumes one
value; `mode 1` consumes object members up to and including the closing
brace; any other mode consumes array items up to and including the closing
bracket.  Fuel is spent on each nested value, member, and item, so fuel
`length + 1` always suffices. -/
def parseJ : Nat → Nat → List Char → Option (List Char)
  | 0, _, _ => none
  | fuel + 1, mode, l =>
    if mode = 0 then
      match skipWs l with
      | [] => none
      | c :: cs =>
        if c = dquote then parseStringRest cs
        else if c = lbrace then
          match skipWs cs with
          | c2 :: cs2 => if c2 = rbrace then some cs2 else parseJ fuel 1 (c2 :: cs2)
          | [] => none
        else if c = '[' then
          match skipWs cs with
          | c2 :: cs2 => if c2 = ']' then some cs2 else parseJ fuel 2 (c2 :: cs2)
          | [] => none
        else if c = 't' then dropLit ['r', 'u', 'e'] cs
        else if c = 'f' then dropLit ['a', 'l', 's', 'e'] cs
        else if c = 'n' then dropLit ['u', 'l', 'l'] cs
        else parseNumber (c :: cs)
    else if mode = 1 then
      match skipWs l with
      | [] => none
      | c :: cs =>
        if c = dquote then
          match parseStringRest cs with
          | some l1 =>
            match skipWs l1 with
            | c2 :: l2 =>
              if c2 = ':' then
                match parseJ fuel 0 l2 with
                | some l3 =>
                  match skipWs l3 with
                  | c3 :: l4 =>
                    if c3 = ',' then parseJ fuel 1 l4
                    else if c3 = rbrace then some l4
                    else none
                  | [] => none
                | none => none
              else none
            | [] => none
          | none => none
        else none
    else
      match parseJ fuel 0 l with
      | some l1 =>
        match skipWs l1 with
        | c :: l2 =>
          if c = ',' then parseJ fuel 2 l2
          else if c = ']' then some l2
          else none
        | [] => none
      | none => none

/-- A string is (syntactically) valid JSON when one JSON value, possibly
surrounded by whitespace, spans it exactly. -/
def jsonValid (s : String) : Bool :=
  match parseJ (s.data.length + 1) 0 s.data with
  | some rest => (skipWs rest).isEmpty
  | none => false

/-! ### Character-class and rendering lemmas -/

/-- A character that may sit unescaped inside a JSON string literal. -/
def jsonSafeChar (c : Char) : Bool :=
  !(c = dquote) && !(c = bslash) && 32 ≤ c.toNat

/-- A character list whose head (if any) cannot extend a JSON number. -/
def numBound : List Char → Bool
  | [] => true
  | c :: _ => !c.isDigit && !(c = '.') && !(c = 'e') && !(c = 'E')

/-- A character list whose head (if any) is not a digit. -/
def noDigitHead : List Char → Bool
  | [] => true
  | c :: _ => !c.isDigit

/-- The tail of a serialized record starting at its `"ts"` member, with `rest`
following the record's closing brace.  The segments below slice
`(recordObj r).data ++ rest` member by member. -/
def mTs (r : ProfileResult) (rest : List Char) : List Char :=
  dquote :: 't' :: 's' :: dquote :: ':' :: ((fmtFixed3 r.Start).data ++ (rbrace :: rest))

def mTid (r : ProfileResult) (rest : List Char) : List Char :=
  dquote :: 't' :: 'i' :: 'd' :: dquote :: ':' :: (natChars r.ThreadID ++ (',' :: mTs r rest))

def mPid (r : ProfileResult) (rest : List Char) : List Char :=
  dquote :: 'p' :: 'i' :: 'd' :: dquote :: ':' :: (natChars 0 ++ (',' :: mTid r rest))

def mPh (r : ProfileResult) (rest : List Char) : List Char :=
  dquote :: 'p' :: 'h' :: dquote :: ':' :: dquote :: 'X' :: dquote :: ',' :: mPid r rest

def mName (r : ProfileResult) (rest : List Char) : List Char :=
  dquote :: 'n' :: 'a' :: 'm' :: 'e' :: dquote :: ':' ::
    dquote :: ((escapeName r.Name).data ++ (dquote :: ',' :: mPh r rest))

def mDur (r : ProfileResult) (rest : List Char) : List Char :=
  dquote :: 'd' :: 'u' :: 'r' :: dquote :: ':' :: (intChars r.ElapsedTime ++ (',' :: mName r rest))

def mCat (r : ProfileResult) (rest : List Char) : List Char :=
  dquote :: 'c' :: 'a' :: 't' :: dquote :: ':' ::
    dquote :: 'f' :: 'u' :: 'n' :: 'c' :: 't' :: 'i' :: 'o' :: 'n' :: dquote :: ',' :: mDur r rest

/-- The concatenation of the serialized records of `rs`, in order — the text
between prologue and epilogue after the spans of `rs` were written. -/
def recsJoin : List ProfileResult → String
  | [] => ""
  | r :: rs => profileJson r ++ recsJoin rs

/-- The member list of the trace object from `"traceEvents"` on, for records
`rs`. -/
def hdTrace (rs : List ProfileResult) : List Char :=
  dquote :: 't' :: 'r' :: 'a' :: 'c' :: 'e' :: 'E' :: 'v' :: 'e' :: 'n' :: 't' :: 's' ::
    dquote :: ':' :: '[' :: lbrace :: rbrace :: ((recsJoin rs).data ++ (']' :: rbrace :: []))

/-- The member list of the trace object from `"otherData"` on. -/
def hdOther (rs : List ProfileResult) : List Char :=
  dquote :: 'o' :: 't' :: 'h' :: 'e' :: 'r' :: 'D' :: 'a' :: 't' :: 'a' ::
    dquote :: ':' :: ' ' :: lbrace :: rbrace :: ',' :: hdTrace rs

/-- The invariant tying the sink's session/stream state to the shape of every
file it has produced: the open file (if any) holds a prologue followed by
serialized records; every other file it ever wrote holds a prologue, records,
and the epilogue.  `P` constrains the records. -/
def InvP (P : ProfileResult → Prop) (st : SinkState) : Prop :=
  (st.openPath.isSome ↔ st.currentSession.isSome) ∧
  (∀ p, st.openPath = some p →
    ∃ rs, lookFS p st.files = some (headerStr ++ recsJoin rs) ∧ ∀ r ∈ rs, P r) ∧
  (∀ p c, st.openPath ≠ some p → lookFS p st.files = some c →
    ∃ rs, c = headerStr ++ (recsJoin rs ++ footerStr) ∧ ∀ r ∈ rs, P r)

/-- No `'.'` occurs in the list. -/
def noDot : List Char → Bool
  | [] => true
  | c :: t => !(c = '.') && noDot t

/-- The text has the shape `⟨no further dot⟩.ddd`: it ends in a decimal point
followed by exactly three digits, and contains no other decimal point. -/
def hasFixed3Shape (s : String) : Bool :=
  match s.data.reverse with
  | c1 :: c2 :: c3 :: c4 :: rest =>
    c1.isDigit && c2.isDigit && c3.isDigit && (c4 = '.') && noDot rest
  | _ => false

theorem digit_ne {c d : Char} (hc : c.isDigit = true) (hd : d.isDigit = false) : c ≠ d := by
  intro e
  rw [e, hd] at hc
  cases hc

theorem digitChar_cases (d : Nat) :
    digitChar d ∈ ['0', '1', '2', '3', '4', '5', '6', '7', '8', '9'] := by
  unfold digitChar
  split <;> decide

theorem digitChar_isDigit (d : Nat) : (digitChar d).isDigit = true := by
  unfold digitChar
  split <;> decide

theorem dropWhile_append_all {α : Type} (p : α → Bool) {l : List α} (r : List α)
    (h : l.all p = true) : (l ++ r).dropWhile p = r.dropWhile p := by
  induction l with
  | nil => rfl
  | cons c t ih =>
    simp only [List.all_cons, Bool.and_eq_true] at h
    rw [List.cons_append, List.dropWhile_cons, if_pos h.1, ih h.2]

theorem dropWhile_head_false {α : Type} (p : α → Bool) {c : α} (l : List α)
    (h : p c = false) : (c :: l).dropWhile p = c :: l := by
  rw [List.dropWhile_cons, if_neg (by rw [h]; exact Bool.false_ne_true)]

theorem numBound_dropDigits {l : List Char} (h : numBound l = true) :
    l.dropWhile Char.isDigit = l := by
  cases l with
  | nil => rfl
  | cons c t =>
    simp only [numBound, Bool.and_eq_true, Bool.not_eq_true'] at h
    exact dropWhile_head_false Char.isDigit t h.1.1.1

theorem natCharsGo_fuel {n : Nat} : ∀ {f g : Nat}, n < f → n < g →
    natCharsGo f n = natCharsGo g n := by
  induction n using Nat.strong_induction_on with
  | _ n ih =>
    intro f g hf hg
    match f, g with
    | f' + 1, g' + 1 =>
      rw [natCharsGo, natCharsGo]
      by_cases h10 : n < 10
      · rw [if_pos h10, if_pos h10]
      · rw [if_neg h10, if_neg h10]
        have hlt : n / 10 < n := Nat.div_lt_self (by omega) (by omega)
        have he := ih (n / 10) hlt (f := f') (g := g') (by omega) (by omega)
        rw [he]

theorem natChars_succ_div {n : Nat} (h : ¬ n < 10) :
    natChars n = natChars (n / 10) ++ [digitChar (n % 10)] := by
  have hlt : n / 10 < n := Nat.div_lt_self (by omega) (by omega)
  have he := natCharsGo_fuel (n := n / 10) (f := n) (g := n / 10 + 1) (by omega) (by omega)
  rw [natChars, natChars, natCharsGo, if_neg h, he]

theorem natChars_small {n : Nat} (h : n < 10) : natChars n = [digitChar n] := by
  rw [natChars, natCharsGo, if_pos h]

theorem natChars_all_digit (n : Nat) : (natChars n).all Char.isDigit = true := by
  induction n using Nat.strong_induction_on with
  | _ n ih =>
    by_cases h10 : n < 10
    · rw [natChars_small h10]
      simp [digitChar_isDigit]
    · rw [natChars_succ_div h10, List.all_append]
      have hlt : n / 10 < n := Nat.div_lt_self (by omega) (by omega)
      simp [ih (n / 10) hlt, digitChar_isDigit]

theorem natChars_ne_nil (n : Nat) : natChars n ≠ [] := by
  by_cases h10 : n < 10
  · rw [natChars_small h10]; exact List.cons_ne_nil _ _
  · rw [natChars_succ_div h10]
    exact fun h => absurd (List.append_eq_nil.mp h).2 (List.cons_ne_nil _ _)

theorem digitChar_ne_zero {n : Nat} (h1 : 1 ≤ n) (h2 : n < 10) : digitChar n ≠ '0' := by
  interval_cases n <;> decide

theorem natChars_head_ne_zero {n : Nat} (h : 1 ≤ n) :
    ∀ {c : Char} {t : List Char}, natChars n = c :: t → c ≠ '0' := by
  induction n using Nat.strong_induction_on with
  | _ n ih =>
    intro c t hct
    by_cases h10 : n < 10
    · rw [natChars_small h10] at hct
      cases hct
      exact digitChar_ne_zero h h10
    · rw [natChars_succ_div h10] at hct
      have hlt : n / 10 < n := Nat.div_lt_self (by omega) (by omega)
      have h1 : 1 ≤ n / 10 := by
        have := Nat.div_le_div_right (c := 10) (Nat.le_of_not_lt h10)
        simpa using this
      obtain ⟨c', t', he⟩ : ∃ c' t', natChars (n / 10) = c' :: t' := by
        cases hh : natChars (n / 10) with
        | nil => exact absurd hh (natChars_ne_nil _)
        | cons a b => exact ⟨a, b, rfl⟩
      rw [he, List.cons_append] at hct
      cases hct
      exact ih (n / 10) hlt h1 he

/-! ### Consumption lemmas for the JSON recognizer: numbers and strings -/

theorem noDigitHead_drop {l : List Char} (h : noDigitHead l = true) :
    l.dropWhile Char.isDigit = l := by
  cases l with
  | nil => rfl
  | cons c t =>
    simp only [noDigitHead, Bool.not_eq_true'] at h
    exact dropWhile_head_false Char.isDigit t h

theorem numBound_noDigitHead {l : List Char} (h : numBound l = true) :
    noDigitHead l = true := by
  cases l with
  | nil => rfl
  | cons c t =>
    simp only [numBound, Bool.and_eq_true] at h
    simp only [noDigitHead, h.1.1.1]

theorem parseIntPart_natChars (n : Nat) {tail : List Char} (hb : noDigitHead tail = true) :
    parseIntPart (natChars n ++ tail) = some tail := by
  rcases Nat.eq_zero_or_pos n with h0 | h1
  · subst h0
    rw [natChars_small (by omega)]
    rw [show digitChar 0 = '0' from rfl, List.cons_append, List.nil_append]
    rw [parseIntPart, if_pos rfl]
  · obtain ⟨c, t, he⟩ : ∃ c t, natChars n = c :: t := by
      cases hh : natChars n with
      | nil => exact absurd hh (natChars_ne_nil _)
      | cons a b => exact ⟨a, b, rfl⟩
    have hall := natChars_all_digit n
    rw [he, List.all_cons, Bool.and_eq_true] at hall
    have hc0 : c ≠ '0' := natChars_head_ne_zero h1 he
    rw [he, List.cons_append, parseIntPart, if_neg hc0, if_pos hall.1,
      dropWhile_append_all Char.isDigit tail hall.2, noDigitHead_drop hb]

theorem parseFrac_bound {tail : List Char} (hb : numBound tail = true) :
    parseFrac tail = some tail := by
  cases tail with
  | nil => rfl
  | cons c t =>
    simp only [numBound, Bool.and_eq_true, Bool.not_eq_true'] at hb
    rw [parseFrac, if_neg (by simpa using hb.1.1.2)]

theorem parseExp_bound {tail : List Char} (hb : numBound tail = true) :
    parseExp tail = some tail := by
  cases tail with
  | nil => rfl
  | cons c t =>
    simp only [numBound, Bool.and_eq_true, Bool.not_eq_true'] at hb
    rw [parseExp.eq_def]
    dsimp only
    rw [if_neg ?_]
    simp only [Bool.or_eq_true, decide_eq_true_eq, not_or]
    exact ⟨by simpa using hb.1.2, by simpa using hb.2⟩

theorem parseNumber_natChars (n : Nat) {tail : List Char} (hb : numBound tail = true) :
    parseNumber (natChars n ++ tail) = some tail := by
  obtain ⟨c, t, he⟩ : ∃ c t, natChars n = c :: t := by
    cases hh : natChars n with
    | nil => exact absurd hh (natChars_ne_nil _)
    | cons a b => exact ⟨a, b, rfl⟩
  have hall := natChars_all_digit n
  rw [he, List.all_cons, Bool.and_eq_true] at hall
  have hcm : c ≠ '-' := digit_ne hall.1 (by decide)
  have hip := parseIntPart_natChars n (numBound_noDigitHead hb)
  rw [he, List.cons_append] at hip ⊢
  rw [parseNumber, if_neg hcm]
  simp only [hip, parseFrac_bound hb, parseExp_bound hb]

theorem parseNumber_neg_natChars (n : Nat) {tail : List Char} (hb : numBound tail = true) :
    parseNumber ('-' :: (natChars n ++ tail)) = some tail := by
  have hip := parseIntPart_natChars n (numBound_noDigitHead hb)
  rw [parseNumber, if_pos rfl]
  simp only [hip, parseFrac_bound hb, parseExp_bound hb]

theorem parseDigits_pad3 (m : Nat) {tail : List Char} (hb : noDigitHead tail = true) :
    parseDigits (pad3 m ++ tail) = some tail := by
  rw [pad3]
  rw [List.cons_append, parseDigits, if_pos (digitChar_isDigit _), List.cons_append,
    List.cons_append, List.nil_append, List.dropWhile_cons,
    if_pos (by rw [digitChar_isDigit]), List.dropWhile_cons,
    if_pos (by rw [digitChar_isDigit]), noDigitHead_drop hb]

theorem fmtFixed3_data (q : ℚ) :
    (fmtFixed3 q).data =
      (if thousandths q < 0 then ['-'] else []) ++
        (natChars ((thousandths q).natAbs / 1000) ++
          ('.' :: pad3 ((thousandths q).natAbs % 1000))) := by
  rw [fmtFixed3]
  by_cases hn : thousandths q < 0
  · rw [if_pos hn, if_pos hn]
    simp [String.data_append]
  · rw [if_neg hn, if_neg hn]
    simp [String.data_append]

theorem parseNumber_fixed3 (q : ℚ) {tail : List Char} (hb : numBound tail = true) :
    parseNumber ((fmtFixed3 q).data ++ tail) = some tail := by
  rw [fmtFixed3_data]
  set a : Nat := (thousandths q).natAbs with ha
  have hip : parseIntPart (natChars (a / 1000) ++ ('.' :: (pad3 (a % 1000) ++ tail))) =
      some ('.' :: (pad3 (a % 1000) ++ tail)) :=
    parseIntPart_natChars (a / 1000) (by rfl)
  have hfrac : parseFrac ('.' :: (pad3 (a % 1000) ++ tail)) = some tail := by
    rw [parseFrac, if_pos rfl, parseDigits_pad3 _ (numBound_noDigitHead hb)]
  by_cases hn : thousandths q < 0
  · rw [if_pos hn]
    simp only [List.cons_append, List.nil_append, List.append_assoc]
    obtain ⟨c, t, he⟩ : ∃ c t, natChars (a / 1000) = c :: t := by
      cases hh : natChars (a / 1000) with
      | nil => exact absurd hh (natChars_ne_nil _)
      | cons x b => exact ⟨x, b, rfl⟩
    rw [parseNumber, if_pos rfl]
    simp only [hip, hfrac, parseExp_bound hb]
  · rw [if_neg hn]
    simp only [List.cons_append, List.nil_append, List.append_assoc]
    obtain ⟨c, t, he⟩ : ∃ c t, natChars (a / 1000) = c :: t := by
      cases hh : natChars (a / 1000) with
      | nil => exact absurd hh (natChars_ne_nil _)
      | cons x b => exact ⟨x, b, rfl⟩
    have hall := natChars_all_digit (a / 1000)
    rw [he, List.all_cons, Bool.and_eq_true] at hall
    have hcm : c ≠ '-' := digit_ne hall.1 (by decide)
    rw [he, List.cons_append] at hip ⊢
    rw [parseNumber, if_neg hcm]
    simp only [hip, hfrac, parseExp_bound hb]

theorem psr_quote (cs : List Char) : parseStringRest (dquote :: cs) = some cs := by
  rw [parseStringRest.eq_def]
  simp

theorem psr_safe {c : Char} (h : jsonSafeChar c = true) (cs : List Char) :
    parseStringRest (c :: cs) = parseStringRest cs := by
  rw [parseStringRest.eq_def]
  simp only [jsonSafeChar, Bool.and_eq_true, Bool.not_eq_true', decide_eq_true_eq,
    decide_eq_false_iff_not] at h
  obtain ⟨⟨h1, h2⟩, h3⟩ := h
  dsimp only
  rw [if_neg h1, if_neg h2, if_pos h3]

theorem psr_string {l : List Char} (h : l.all jsonSafeChar = true) (rest : List Char) :
    parseStringRest (l ++ dquote :: rest) = some rest := by
  induction l with
  | nil => exact psr_quote rest
  | cons c t ih =>
    simp only [List.all_cons, Bool.and_eq_true] at h
    rw [List.cons_append, psr_safe h.1, ih h.2]

/-! ### Stepping lemmas for the JSON recognizer: values, members, items -/

theorem parseJ_val_string (f : Nat) (cs : List Char) :
    parseJ (f + 1) 0 (dquote :: cs) = parseStringRest cs := by
  have w1 : wsChar dquote = false := by decide
  rw [parseJ.eq_def]
  simp [skipWs, List.dropWhile_cons, w1]

theorem parseJ_val_objEmpty (f : Nat) (rest : List Char) :
    parseJ (f + 1) 0 (lbrace :: rbrace :: rest) = some rest := by
  have w1 : wsChar lbrace = false := by decide
  have w2 : wsChar rbrace = false := by decide
  have n1 : lbrace ≠ dquote := by decide
  rw [parseJ.eq_def]
  simp [skipWs, List.dropWhile_cons, w1, w2, n1]

theorem parseJ_val_obj_q (f : Nat) (cs : List Char) :
    parseJ (f + 1) 0 (lbrace :: dquote :: cs) = parseJ f 1 (dquote :: cs) := by
  have w1 : wsChar lbrace = false := by decide
  have w2 : wsChar dquote = false := by decide
  have n1 : lbrace ≠ dquote := by decide
  have n2 : dquote ≠ rbrace := by decide
  rw [parseJ.eq_def]
  simp [skipWs, List.dropWhile_cons, w1, w2, n1, n2]

theorem parseJ_val_arr_obj (f : Nat) (cs : List Char) :
    parseJ (f + 1) 0 ('[' :: lbrace :: cs) = parseJ f 2 (lbrace :: cs) := by
  have w1 : wsChar '[' = false := by decide
  have w2 : wsChar lbrace = false := by decide
  have n1 : ('[' : Char) ≠ dquote := by decide
  have n2 : ('[' : Char) ≠ lbrace := by decide
  have n3 : lbrace ≠ ']' := by decide
  rw [parseJ.eq_def]
  simp [skipWs, List.dropWhile_cons, w1, w2, n1, n2, n3]

theorem parseJ_val_num {c : Char} (f : Nat) (cs : List Char)
    (h0 : wsChar c = false) (h1 : c ≠ dquote) (h2 : c ≠ lbrace) (h3 : c ≠ '[')
    (h4 : c ≠ 't') (h5 : c ≠ 'f') (h6 : c ≠ 'n') :
    parseJ (f + 1) 0 (c :: cs) = parseNumber (c :: cs) := by
  rw [parseJ.eq_def]
  simp [skipWs, List.dropWhile_cons, h0, h1, h2, h3, h4, h5, h6]

theorem parseJ_mem_more {f : Nat} {cs l2 l4 : List Char}
    (h1 : parseStringRest cs = some (':' :: l2))
    (h2 : parseJ f 0 l2 = some (',' :: l4)) :
    parseJ (f + 1) 1 (dquote :: cs) = parseJ f 1 l4 := by
  have w1 : wsChar dquote = false := by decide
  have w2 : wsChar ':' = false := by decide
  have w3 : wsChar ',' = false := by decide
  rw [parseJ.eq_def]
  simp [skipWs, List.dropWhile_cons, w1, w2, w3, h1, h2]

theorem parseJ_mem_last {f : Nat} {cs l2 l4 : List Char}
    (h1 : parseStringRest cs = some (':' :: l2))
    (h2 : parseJ f 0 l2 = some (rbrace :: l4)) :
    parseJ (f + 1) 1 (dquote :: cs) = some l4 := by
  have w1 : wsChar dquote = false := by decide
  have w2 : wsChar ':' = false := by decide
  have w3 : wsChar rbrace = false := by decide
  have n1 : rbrace ≠ ',' := by decide
  rw [parseJ.eq_def]
  simp [skipWs, List.dropWhile_cons, w1, w2, w3, h1, h2, n1]

theorem parseJ_item_more {f : Nat} {l l2 : List Char}
    (h : parseJ f 0 l = some (',' :: l2)) :
    parseJ (f + 1) 2 l = parseJ f 2 l2 := by
  have w3 : wsChar ',' = false := by decide
  rw [parseJ.eq_def]
  simp [skipWs, List.dropWhile_cons, w3, h]

theorem parseJ_item_last {f : Nat} {l l2 : List Char}
    (h : parseJ f 0 l = some (']' :: l2)) :
    parseJ (f + 1) 2 l = some l2 := by
  have w3 : wsChar ']' = false := by decide
  have n1 : (']' : Char) ≠ ',' := by decide
  rw [parseJ.eq_def]
  simp [skipWs, List.dropWhile_cons, w3, h, n1]

/-- A string value followed by a separator character: one `parseJ` value
consumes it. -/
theorem parseJ_valStr {v : String} (f : Nat) (tail : List Char)
    (hv : v.data.all jsonSafeChar = true) :
    parseJ (f + 1) 0 (dquote :: (v.data ++ (dquote :: tail))) = some tail := by
  rw [parseJ_val_string, psr_string hv]

theorem digitChar_not_special (d : Nat) :
    wsChar (digitChar d) = false ∧ digitChar d ≠ dquote ∧ digitChar d ≠ lbrace ∧
      digitChar d ≠ '[' ∧ digitChar d ≠ 't' ∧ digitChar d ≠ 'f' ∧ digitChar d ≠ 'n' := by
  unfold digitChar
  split <;>
    exact ⟨by decide, by decide, by decide, by decide, by decide, by decide, by decide⟩

theorem natChars_head_digitChar (n : Nat) : ∃ d t, natChars n = digitChar d :: t := by
  induction n using Nat.strong_induction_on with
  | _ n ih =>
    by_cases h10 : n < 10
    · exact ⟨n, [], by rw [natChars_small h10]⟩
    · have hlt : n / 10 < n := Nat.div_lt_self (by omega) (by omega)
      obtain ⟨d, t, he⟩ := ih (n / 10) hlt
      exact ⟨d, t ++ [digitChar (n % 10)], by rw [natChars_succ_div h10, he, List.cons_append]⟩

theorem parseJ_valNat (f : Nat) (n : Nat) {tail : List Char} (hb : numBound tail = true) :
    parseJ (f + 1) 0 (natChars n ++ tail) = some tail := by
  obtain ⟨d, t, he⟩ := natChars_head_digitChar n
  obtain ⟨w0, w1, w2, w3, w4, w5, w6⟩ := digitChar_not_special d
  have hnum := parseNumber_natChars n hb
  rw [he, List.cons_append] at hnum ⊢
  rw [parseJ_val_num f _ w0 w1 w2 w3 w4 w5 w6, hnum]

theorem parseJ_valInt (f : Nat) (i : Int) {tail : List Char} (hb : numBound tail = true) :
    parseJ (f + 1) 0 (intChars i ++ tail) = some tail := by
  rw [intChars]
  by_cases hi : i < 0
  · rw [if_pos hi]
    simp only [List.cons_append, List.nil_append]
    rw [parseJ_val_num (c := '-') f _ (by decide) (by decide) (by decide) (by decide)
      (by decide) (by decide) (by decide)]
    exact parseNumber_neg_natChars _ hb
  · rw [if_neg hi, List.nil_append]
    exact parseJ_valNat f _ hb

theorem parseJ_valFixed3 (f : Nat) (q : ℚ) {tail : List Char} (hb : numBound tail = true) :
    parseJ (f + 1) 0 ((fmtFixed3 q).data ++ tail) = some tail := by
  rw [fmtFixed3_data]
  by_cases hn : thousandths q < 0
  · rw [if_pos hn]
    simp only [List.cons_append, List.nil_append, List.append_assoc]
    rw [parseJ_val_num (c := '-') f _ (by decide) (by decide) (by decide) (by decide)
      (by decide) (by decide) (by decide)]
    have hnum := parseNumber_fixed3 q hb
    rw [fmtFixed3_data, if_pos hn] at hnum
    simpa [List.cons_append, List.nil_append, List.append_assoc] using hnum
  · rw [if_neg hn]
    simp only [List.nil_append, List.append_assoc]
    obtain ⟨d, t, he⟩ := natChars_head_digitChar ((thousandths q).natAbs / 1000)
    obtain ⟨w0, w1, w2, w3, w4, w5, w6⟩ := digitChar_not_special d
    have hnum := parseNumber_fixed3 q hb
    rw [fmtFixed3_data, if_neg hn] at hnum
    simp only [List.nil_append, List.append_assoc] at hnum
    rw [he, List.cons_append] at hnum ⊢
    rw [parseJ_val_num f _ w0 w1 w2 w3 w4 w5 w6, hnum]

/-! ### Consuming one serialized span record -/

theorem data_mk (l : List Char) : (String.mk l).data = l := rfl

theorem parseJ_valStrL {vd : List Char} (f : Nat) (tail : List Char)
    (hv : vd.all jsonSafeChar = true) :
    parseJ (f + 1) 0 (dquote :: (vd ++ (dquote :: tail))) = some tail := by
  rw [parseJ_val_string, psr_string hv]

theorem memStrStep (kd vd : List Char) (f : Nat) {next : List Char}
    (hk : kd.all jsonSafeChar = true) (hv : vd.all jsonSafeChar = true) :
    parseJ (f + 2) 1
      (dquote :: (kd ++ (dquote :: ':' :: (dquote :: (vd ++ (dquote :: ',' :: next)))))) =
      parseJ (f + 1) 1 next :=
  parseJ_mem_more (psr_string hk _) (parseJ_valStrL f _ hv)

theorem memNumStep (kd : List Char) (f : Nat) {num next : List Char}
    (hk : kd.all jsonSafeChar = true)
    (hnum : parseJ (f + 1) 0 (num ++ (',' :: next)) = some (',' :: next)) :
    parseJ (f + 2) 1 (dquote :: (kd ++ (dquote :: ':' :: (num ++ (',' :: next))))) =
      parseJ (f + 1) 1 next :=
  parseJ_mem_more (psr_string hk _) hnum

theorem memNumLast (kd : List Char) (f : Nat) {num next : List Char}
    (hk : kd.all jsonSafeChar = true)
    (hnum : parseJ (f + 1) 0 (num ++ (rbrace :: next)) = some (rbrace :: next)) :
    parseJ (f + 2) 1 (dquote :: (kd ++ (dquote :: ':' :: (num ++ (rbrace :: next))))) =
      some next :=
  parseJ_mem_last (psr_string hk _) hnum

theorem recordObj_append (r : ProfileResult) (rest : List Char) :
    (recordObj r).data ++ rest = lbrace :: mCat r rest := by
  have hz : natChars 0 = ['0'] := rfl
  simp [recordObj, durStr, tidStr, tsStr, data_mk, String.data_append,
    mCat, mDur, mName, mPh, mPid, mTid, mTs, hz, List.append_assoc]
  decide

theorem parseJ_record (f : Nat) (r : ProfileResult) (rest : List Char)
    (hname : (escapeName r.Name).data.all jsonSafeChar = true) :
    parseJ (f + 9) 0 ((recordObj r).data ++ rest) = some rest := by
  rw [recordObj_append]
  have vDur : parseJ (f + 6) 0 (intChars r.ElapsedTime ++ (',' :: mName r rest)) =
      some (',' :: mName r rest) := parseJ_valInt (f + 5) r.ElapsedTime (by rfl)
  have vPid : parseJ (f + 3) 0 (natChars 0 ++ (',' :: mTid r rest)) =
      some (',' :: mTid r rest) := parseJ_valNat (f + 2) 0 (by rfl)
  have vTid : parseJ (f + 2) 0 (natChars r.ThreadID ++ (',' :: mTs r rest)) =
      some (',' :: mTs r rest) := parseJ_valNat (f + 1) r.ThreadID (by rfl)
  have vTs : parseJ (f + 1) 0 ((fmtFixed3 r.Start).data ++ (rbrace :: rest)) =
      some (rbrace :: rest) := parseJ_valFixed3 f r.Start (by rfl)
  have s1 : parseJ (f + 9) 0 (lbrace :: mCat r rest) = parseJ (f + 8) 1 (mCat r rest) :=
    parseJ_val_obj_q (f + 8) _
  have s2 : parseJ (f + 8) 1 (mCat r rest) = parseJ (f + 7) 1 (mDur r rest) :=
    memStrStep ['c', 'a', 't'] ['f', 'u', 'n', 'c', 't', 'i', 'o', 'n'] (f + 6)
      (by decide) (by decide)
  have s3 : parseJ (f + 7) 1 (mDur r rest) = parseJ (f + 6) 1 (mName r rest) :=
    memNumStep ['d', 'u', 'r'] (f + 5) (by decide) vDur
  have s4 : parseJ (f + 6) 1 (mName r rest) = parseJ (f + 5) 1 (mPh r rest) :=
    memStrStep ['n', 'a', 'm', 'e'] (escapeName r.Name).data (f + 4) (by decide) hname
  have s5 : parseJ (f + 5) 1 (mPh r rest) = parseJ (f + 4) 1 (mPid r rest) :=
    memStrStep ['p', 'h'] ['X'] (f + 3) (by decide) (by decide)
  have s6 : parseJ (f + 4) 1 (mPid r rest) = parseJ (f + 3) 1 (mTid r rest) :=
    memNumStep ['p', 'i', 'd'] (f + 2) (by decide) vPid
  have s7 : parseJ (f + 3) 1 (mTid r rest) = parseJ (f + 2) 1 (mTs r rest) :=
    memNumStep ['t', 'i', 'd'] (f + 1) (by decide) vTid
  have s8 : parseJ (f + 2) 1 (mTs r rest) = some rest :=
    memNumLast ['t', 's'] f (by decide) vTs
  exact s1.trans (s2.trans (s3.trans (s4.trans (s5.trans (s6.trans (s7.trans s8))))))

/-! ### The whole trace file is one JSON value -/

theorem recsJoin_data_cons (r : ProfileResult) (rs : List ProfileResult) :
    (recsJoin (r :: rs)).data = ',' :: ((recordObj r).data ++ (recsJoin rs).data) := by
  have h1 : (("," : String)).data = [','] := rfl
  simp [recsJoin, profileJson, String.data_append, h1]

theorem parseJ_val_ws {c : Char} (g : Nat) (l : List Char) (h : wsChar c = true) :
    parseJ g 0 (c :: l) = parseJ g 0 l := by
  cases g with
  | zero => rfl
  | succ g' =>
    rw [parseJ.eq_def, parseJ.eq_def]
    simp [skipWs, List.dropWhile_cons, h]

theorem parseJ_items (rs : List ProfileResult) (r : ProfileResult) (rest : List Char)
    (hn : ∀ x ∈ r :: rs, (escapeName x.Name).data.all jsonSafeChar = true) :
    ∀ f : Nat, parseJ (f + 10 + rs.length) 2
      ((recordObj r).data ++ ((recsJoin rs).data ++ (']' :: rest))) = some rest := by
  induction rs generalizing r with
  | nil =>
    intro f
    have hrec : parseJ (f + 9) 0 ((recordObj r).data ++ (']' :: rest)) = some (']' :: rest) :=
      parseJ_record f r _ (hn r (List.mem_singleton.mpr rfl))
    have : (recsJoin []).data = ([] : List Char) := rfl
    rw [this, List.nil_append, List.length_nil, Nat.add_zero]
    rw [show f + 10 = (f + 9) + 1 from by omega]
    exact parseJ_item_last hrec
  | cons r2 rs' ih =>
    intro f
    rw [recsJoin_data_cons]
    have hname : (escapeName r.Name).data.all jsonSafeChar = true :=
      hn r (List.mem_cons_self r _)
    have hrec : parseJ ((f + 1) + rs'.length + 9) 0
        ((recordObj r).data ++
          (',' :: ((recordObj r2).data ++ ((recsJoin rs').data ++ (']' :: rest))))) =
        some (',' :: ((recordObj r2).data ++ ((recsJoin rs').data ++ (']' :: rest)))) :=
      parseJ_record ((f + 1) + rs'.length) r _ hname
    have hn' : ∀ x ∈ r2 :: rs', (escapeName x.Name).data.all jsonSafeChar = true :=
      fun x hx => hn x (List.mem_cons_of_mem r hx)
    simp only [List.cons_append, List.append_assoc, List.length_cons]
    rw [show f + 10 + (rs'.length + 1) = ((f + 1) + rs'.length + 9) + 1 from by omega]
    rw [parseJ_item_more hrec]
    rw [show (f + 1) + rs'.length + 9 = f + 10 + rs'.length from by omega]
    exact ih r2 hn' f

theorem header_append (rs : List ProfileResult) :
    headerStr.data ++ ((recsJoin rs).data ++ footerStr.data) = lbrace :: hdOther rs := by
  have hh : headerStr.data =
      [lbrace, dquote, 'o', 't', 'h', 'e', 'r', 'D', 'a', 't', 'a', dquote, ':', ' ',
        lbrace, rbrace, ',', dquote, 't', 'r', 'a', 'c', 'e', 'E', 'v', 'e', 'n', 't', 's',
        dquote, ':', '[', lbrace, rbrace] := by decide
  have hf : footerStr.data = [']', rbrace] := by decide
  rw [hh, hf, hdOther, hdTrace]
  simp [List.cons_append, List.append_assoc]

theorem parseJ_file (rs : List ProfileResult)
    (hn : ∀ x ∈ rs, (escapeName x.Name).data.all jsonSafeChar = true) (f : Nat) :
    parseJ (f + 15 + rs.length) 0
      (headerStr.data ++ ((recsJoin rs).data ++ footerStr.data)) = some [] := by
  have vOther : parseJ (f + 13 + rs.length) 0
      (' ' :: lbrace :: rbrace :: ',' :: hdTrace rs) = some (',' :: hdTrace rs) := by
    rw [parseJ_val_ws _ _ (by decide)]
    rw [show f + 13 + rs.length = (f + 12 + rs.length) + 1 from by omega]
    exact parseJ_val_objEmpty _ _
  have vArr : parseJ (f + 12 + rs.length) 0
      ('[' :: lbrace :: rbrace :: ((recsJoin rs).data ++ (']' :: rbrace :: []))) =
      some (rbrace :: []) := by
    rw [show f + 12 + rs.length = (f + 11 + rs.length) + 1 from by omega]
    rw [parseJ_val_arr_obj]
    cases rs with
    | nil =>
      have hj : (recsJoin []).data = ([] : List Char) := rfl
      rw [hj, List.nil_append, List.length_nil, Nat.add_zero]
      rw [show f + 11 = (f + 10) + 1 from by omega]
      refine parseJ_item_last ?_
      rw [show f + 10 = (f + 9) + 1 from by omega]
      exact parseJ_val_objEmpty _ _
    | cons r rs' =>
      rw [recsJoin_data_cons]
      simp only [List.cons_append, List.append_assoc, List.length_cons]
      rw [show f + 11 + (rs'.length + 1) = ((f + 11 + rs'.length)) + 1 from by omega]
      have hitem : parseJ (f + 11 + rs'.length) 0
          (lbrace :: rbrace :: ',' ::
            ((recordObj r).data ++ ((recsJoin rs').data ++ (']' :: rbrace :: [])))) =
          some (',' ::
            ((recordObj r).data ++ ((recsJoin rs').data ++ (']' :: rbrace :: [])))) := by
        rw [show f + 11 + rs'.length = (f + 10 + rs'.length) + 1 from by omega]
        exact parseJ_val_objEmpty _ _
      rw [parseJ_item_more hitem]
      rw [show f + 11 + rs'.length = (f + 1) + 10 + rs'.length from by omega]
      exact parseJ_items rs' r (rbrace :: []) hn (f + 1)
  have t1 : parseJ ((f + 14 + rs.length) + 1) 0 (lbrace :: hdOther rs) =
      parseJ (f + 14 + rs.length) 1 (hdOther rs) :=
    parseJ_val_obj_q _ _
  have t2 : parseJ (f + 14 + rs.length) 1 (hdOther rs) =
      parseJ (f + 13 + rs.length) 1 (hdTrace rs) := by
    rw [show f + 14 + rs.length = (f + 13 + rs.length) + 1 from by omega]
    exact parseJ_mem_more
      (psr_string (l := ['o', 't', 'h', 'e', 'r', 'D', 'a', 't', 'a']) (by decide) _) vOther
  have t3 : parseJ (f + 13 + rs.length) 1 (hdTrace rs) = some [] := by
    rw [show f + 13 + rs.length = (f + 12 + rs.length) + 1 from by omega]
    exact parseJ_mem_last
      (psr_string (l := ['t', 'r', 'a', 'c', 'e', 'E', 'v', 'e', 'n', 't', 's'])
        (by decide) _) vArr
  rw [header_append, show f + 15 + rs.length = (f + 14 + rs.length) + 1 from by omega]
  exact t1.trans (t2.trans t3)

theorem recsJoin_length_ge (rs : List ProfileResult) :
    rs.length ≤ (recsJoin rs).data.length := by
  induction rs with
  | nil => simp [recsJoin]
  | cons r rs' ih =>
    rw [recsJoin_data_cons]
    simp only [List.length_cons, List.length_append]
    omega

theorem jsonValid_file (rs : List ProfileResult)
    (hn : ∀ x ∈ rs, (escapeName x.Name).data.all jsonSafeChar = true) :
    jsonValid (headerStr ++ (recsJoin rs ++ footerStr)) = true := by
  have hdata : (headerStr ++ (recsJoin rs ++ footerStr)).data =
      headerStr.data ++ ((recsJoin rs).data ++ footerStr.data) := by
    simp [String.data_append]
  have hlen : rs.length ≤ (recsJoin rs).data.length := recsJoin_length_ge rs
  have hlen2 : (headerStr.data ++ ((recsJoin rs).data ++ footerStr.data)).length =
      (recsJoin rs).data.length + 36 := by
    have h1 : headerStr.data.length = 34 := by decide
    have h2 : footerStr.data.length = 2 := by decide
    simp only [List.length_append, h1, h2]
    omega
  rw [jsonValid, hdata, hlen2]
  rw [show (recsJoin rs).data.length + 36 + 1 =
    ((recsJoin rs).data.length + 22 - rs.length) + 15 + rs.length from by omega]
  rw [parseJ_file rs hn _]
  rfl

theorem jsonValid_recordObj (r : ProfileResult)
    (hname : (escapeName r.Name).data.all jsonSafeChar = true) :
    jsonValid (recordObj r) = true := by
  have e : (recordObj r).data = lbrace :: mCat r [] := by
    have e0 := recordObj_append r []
    rwa [List.append_nil] at e0
  have h9 : 9 ≤ (lbrace :: mCat r []).length + 1 := by
    simp [mCat, mDur, mName, mPh, mPid, mTid, mTs]
  rw [jsonValid, e]
  rw [show (lbrace :: mCat r []).length + 1 =
    ((lbrace :: mCat r []).length + 1 - 9) + 9 from by omega]
  have hr := parseJ_record ((lbrace :: mCat r []).length + 1 - 9) r [] hname
  rw [List.append_nil, e] at hr
  rw [hr]
  rfl

/-! ### File-system and string lemmas for the session invariant -/

theorem str_append_assoc (a b c : String) : (a ++ b) ++ c = a ++ (b ++ c) := by
  apply String.ext
  simp [String.data_append, List.append_assoc]

theorem str_empty_append (s : String) : "" ++ s = s := by
  apply String.ext
  have h : ("" : String).data = [] := rfl
  simp [String.data_append, h]

theorem str_append_empty (s : String) : s ++ "" = s := by
  apply String.ext
  have h : ("" : String).data = [] := rfl
  simp [String.data_append, h]

theorem recsJoin_snoc (rs : List ProfileResult) (r : ProfileResult) :
    recsJoin (rs ++ [r]) = recsJoin rs ++ profileJson r := by
  induction rs with
  | nil =>
    show recsJoin [r] = "" ++ profileJson r
    rw [str_empty_append]
    show profileJson r ++ recsJoin [] = profileJson r
    exact str_append_empty _
  | cons x rs' ih =>
    show profileJson x ++ recsJoin (rs' ++ [r]) = (profileJson x ++ recsJoin rs') ++ profileJson r
    rw [ih, str_append_assoc]

theorem lookFS_set_self (p v : String) (fs : List (String × String)) :
    lookFS p (setFS p v fs) = some v := by
  induction fs with
  | nil => simp [setFS, lookFS]
  | cons e t ih =>
    obtain ⟨q, w⟩ := e
    by_cases hq : q = p
    · simp [setFS, hq, lookFS]
    · simp [setFS, hq, lookFS, ih]

theorem lookFS_set_other {p q : String} (hpq : p ≠ q) (v : String)
    (fs : List (String × String)) : lookFS q (setFS p v fs) = lookFS q fs := by
  induction fs with
  | nil => simp [setFS, lookFS, hpq]
  | cons e t ih =>
    obtain ⟨x, w⟩ := e
    by_cases hx : x = p
    · subst hx
      simp [setFS, lookFS, hpq, ih]
    · simp [setFS, hx, lookFS, ih]

theorem invP_init (P : ProfileResult → Prop) : InvP P initState := by
  refine ⟨by simp [initState], ?_, ?_⟩
  · intro p hp
    simp [initState] at hp
  · intro p c _ hc
    simp [initState, lookFS] at hc

theorem invP_internalEnd {P : ProfileResult → Prop} {st : SinkState} (h : InvP P st) :
    InvP P (internalEndSession st) ∧ (internalEndSession st).openPath = none ∧
      (internalEndSession st).currentSession = none := by
  obtain ⟨hiff, hopen, hclosed⟩ := h
  cases hcur : st.currentSession with
  | none =>
    have hop : st.openPath = none := by
      cases hq : st.openPath with
      | none => rfl
      | some p =>
        rw [hq, hcur] at hiff
        simp at hiff
    rw [internalEndSession, hcur]
    exact ⟨⟨hiff, hopen, hclosed⟩, hop, hcur⟩
  | some s =>
    obtain ⟨p, hp⟩ : ∃ p, st.openPath = some p := by
      cases hq : st.openPath with
      | none =>
        rw [hq, hcur] at hiff
        simp at hiff
      | some p => exact ⟨p, rfl⟩
    obtain ⟨rs, hrs, hgood⟩ := hopen p hp
    rw [internalEndSession, hcur]
    refine ⟨⟨by simp [doClose, doWrite], ?_, ?_⟩, by simp [doClose, doWrite], rfl⟩
    · intro q hq
      simp [doClose, doWrite] at hq
    · intro q c _ hc
      simp only [doClose, doWrite, hp] at hc
      by_cases hpq : p = q
      · subst hpq
        rw [lookFS_set_self, hrs] at hc
        simp only [Option.getD_some, Option.some.injEq] at hc
        exact ⟨rs, by rw [← hc, str_append_assoc], hgood⟩
      · rw [lookFS_set_other hpq] at hc
        exact hclosed q c (by rw [hp]; exact fun e => hpq (Option.some.inj e)) hc

theorem invP_doLogW {P : ProfileResult → Prop} {st : SinkState} (m : String) (h : InvP P st) :
    InvP P (doLogW m st) := h

theorem invP_afterOpen {P : ProfileResult → Prop} {st1 : SinkState} (h : InvP P st1)
    (hop : st1.openPath = none) (_hcur : st1.currentSession = none)
    (name path : String) (ok : Bool) :
    InvP P
      (if ok then doWrite headerStr { doOpen path ok st1 with currentSession := some name }
       else doLogE (openErrMsg path) (doOpen path ok st1)) := by
  obtain ⟨hiff, hopen, hclosed⟩ := h
  cases ok with
  | false =>
    rw [if_neg (by simp)]
    show InvP P
      { currentSession := st1.currentSession, openPath := st1.openPath,
        files := st1.files,
        trace := (st1.trace ++ [Effect.fsOpen path false]) ++
          [Effect.logE (openErrMsg path)] }
    exact ⟨hiff, hopen, hclosed⟩
  | true =>
    rw [if_pos rfl]
    show InvP P
      { currentSession := some name, openPath := some path,
        files := setFS path ((lookFS path (setFS path "" st1.files)).getD "" ++ headerStr)
          (setFS path "" st1.files),
        trace := (st1.trace ++ [Effect.fsOpen path true]) ++
          [Effect.fsWrite (some path) headerStr] }
    refine ⟨by simp, ?_, ?_⟩
    · intro p hp
      have hp' : p = path := by simpa using hp.symm
      subst hp'
      refine ⟨[], ?_, by simp⟩
      show lookFS p (setFS p ((lookFS p (setFS p "" st1.files)).getD "" ++ headerStr)
        (setFS p "" st1.files)) = some (headerStr ++ recsJoin [])
      rw [lookFS_set_self, lookFS_set_self, Option.getD_some, str_empty_append]
      show some headerStr = some (headerStr ++ "")
      rw [str_append_empty]
    · intro q c hq hc
      have hpq : path ≠ q := fun e => hq (by simp [e])
      show ∃ rs, c = headerStr ++ (recsJoin rs ++ footerStr) ∧ ∀ r ∈ rs, P r
      replace hc : lookFS q (setFS path ((lookFS path (setFS path "" st1.files)).getD ""
        ++ headerStr) (setFS path "" st1.files)) = some c := hc
      rw [lookFS_set_other hpq, lookFS_set_other hpq] at hc
      exact hclosed q c (by rw [hop]; simp) hc

theorem invP_begin {P : ProfileResult → Prop} {st : SinkState} (h : InvP P st)
    (name path : String) (ok : Bool) : InvP P (beginSession name path ok st) := by
  cases hcur : st.currentSession with
  | none =>
    have hop : st.openPath = none := by
      have hiff := h.1
      cases hq : st.openPath with
      | none => rfl
      | some p =>
        rw [hq, hcur] at hiff
        simp at hiff
    rw [beginSession, hcur]
    exact invP_afterOpen h hop hcur name path ok
  | some old =>
    have hW : InvP P (doLogW (beginWarnMsg name old) st) := h
    have hres := invP_internalEnd hW
    rw [beginSession, hcur]
    exact invP_afterOpen hres.1 hres.2.1 hres.2.2 name path ok

theorem invP_end {P : ProfileResult → Prop} {st : SinkState} (h : InvP P st) :
    InvP P (endSession st) := (invP_internalEnd h).1

theorem invP_writeProfile {P : ProfileResult → Prop} {st : SinkState} {r : ProfileResult}
    (hP : P r) (h : InvP P st) : InvP P (writeProfile r st) := by
  obtain ⟨hiff, hopen, hclosed⟩ := h
  cases hcur : st.currentSession with
  | none =>
    rw [writeProfile, hcur]
    exact ⟨hiff, hopen, hclosed⟩
  | some s =>
    obtain ⟨p, hp⟩ : ∃ p, st.openPath = some p := by
      cases hq : st.openPath with
      | none =>
        rw [hq, hcur] at hiff
        simp at hiff
      | some p => exact ⟨p, rfl⟩
    obtain ⟨rs, hrs, hgood⟩ := hopen p hp
    rw [writeProfile, hcur]
    rw [show (some s).isSome = true from rfl, if_pos rfl]
    rw [doWrite, hp, hcur]
    show InvP P
      { currentSession := some s, openPath := some p,
        files := setFS p ((lookFS p st.files).getD "" ++ profileJson r) st.files,
        trace := st.trace ++ [Effect.fsWrite (some p) (profileJson r)] }
    refine ⟨by simp [hcur], ?_, ?_⟩
    · intro q hq
      have hq' : q = p := by simpa using hq.symm
      subst hq'
      refine ⟨rs ++ [r], ?_, ?_⟩
      · show lookFS q (setFS q ((lookFS q st.files).getD "" ++ profileJson r) st.files) =
          some (headerStr ++ recsJoin (rs ++ [r]))
        rw [lookFS_set_self, hrs, Option.getD_some, recsJoin_snoc, ← str_append_assoc]
      · intro x hx
        rcases List.mem_append.mp hx with hx | hx
        · exact hgood x hx
        · rw [List.mem_singleton.mp hx]
          exact hP
    · intro q c hq hc
      have hpq : p ≠ q := fun e => hq (by simp [e])
      replace hc : lookFS q (setFS p ((lookFS p st.files).getD "" ++ profileJson r)
        st.files) = some c := hc
      rw [lookFS_set_other hpq] at hc
      exact hclosed q c (by rw [hp]; exact fun e => hpq (Option.some.inj e)) hc

theorem invP_step {P : ProfileResult → Prop} {st : SinkState} (h : InvP P st) {c : Cmd}
    (hc : ∀ r, c = Cmd.write r → P r) : InvP P (step st c) := by
  cases c with
  | beginS name path ok => exact invP_begin h name path ok
  | endS => exact invP_end h
  | write r => exact invP_writeProfile (hc r rfl) h

theorem invP_run {P : ProfileResult → Prop} (cmds : List Cmd) :
    ∀ st : SinkState, (∀ r, Cmd.write r ∈ cmds → P r) → InvP P st →
      InvP P (cmds.foldl step st) := by
  induction cmds with
  | nil => exact fun st _ h => h
  | cons c t ih =>
    intro st hc h
    rw [List.foldl_cons]
    exact ih (step st c) (fun r hr => hc r (List.mem_cons_of_mem c hr))
      (invP_step h (fun r he => hc r (he ▸ List.mem_cons_self c t)))

/-! ### Remaining supporting lemmas for the claims -/

theorem internalEnd_session_none (st : SinkState) :
    (internalEndSession st).currentSession = none := by
  cases h : st.currentSession with
  | none => rw [internalEndSession, h]; exact h
  | some s => rw [internalEndSession, h]

theorem run_append_endS (cmds : List Cmd) :
    run (cmds ++ [Cmd.endS]) = endSession (run cmds) := by
  rw [run, run, List.foldl_append]
  rfl

theorem escapeName_safe {s : String}
    (hgood : ∀ c ∈ s.data, c ≠ bslash ∧ 32 ≤ c.toNat) :
    (escapeName s).data.all jsonSafeChar = true := by
  rw [escapeName, data_mk, List.all_eq_true]
  intro x hx
  obtain ⟨c, hc, he⟩ := List.mem_map.mp hx
  by_cases hq : c = dquote
  · rw [← he, if_pos hq]
    decide
  · rw [← he, if_neg hq]
    obtain ⟨h1, h2⟩ := hgood c hc
    simp only [jsonSafeChar, Bool.and_eq_true, Bool.not_eq_true', decide_eq_false_iff_not,
      decide_eq_true_eq]
    exact ⟨⟨hq, h1⟩, h2⟩

theorem noDot_append {l r : List Char} (hl : noDot l = true) (hr : noDot r = true) :
    noDot (l ++ r) = true := by
  induction l with
  | nil => exact hr
  | cons c t ih =>
    rw [noDot, Bool.and_eq_true] at hl
    rw [List.cons_append, noDot, Bool.and_eq_true]
    exact ⟨hl.1, ih hl.2⟩

theorem noDot_of_all_digit {l : List Char} (h : l.all Char.isDigit = true) :
    noDot l = true := by
  induction l with
  | nil => rfl
  | cons c t ih =>
    rw [List.all_cons, Bool.and_eq_true] at h
    rw [noDot, Bool.and_eq_true]
    refine ⟨?_, ih h.2⟩
    simp only [Bool.not_eq_true', decide_eq_false_iff_not]
    exact digit_ne h.1 (by decide)

theorem noDot_reverse {l : List Char} (h : noDot l = true) : noDot l.reverse = true := by
  induction l with
  | nil => rfl
  | cons c t ih =>
    rw [noDot, Bool.and_eq_true] at h
    rw [List.reverse_cons]
    exact noDot_append (ih h.2) (by rw [noDot, h.1]; rfl)

theorem fmtFixed3_shape (q : ℚ) : hasFixed3Shape (fmtFixed3 q) = true := by
  rw [hasFixed3Shape, fmtFixed3_data, pad3]
  have hrev :
      ((if thousandths q < 0 then ['-'] else []) ++
        (natChars ((thousandths q).natAbs / 1000) ++
          ('.' :: [digitChar ((thousandths q).natAbs % 1000 / 100),
            digitChar ((thousandths q).natAbs % 1000 / 10),
            digitChar ((thousandths q).natAbs % 1000)]))).reverse =
      digitChar ((thousandths q).natAbs % 1000) ::
        digitChar ((thousandths q).natAbs % 1000 / 10) ::
        digitChar ((thousandths q).natAbs % 1000 / 100) :: '.' ::
        ((natChars ((thousandths q).natAbs / 1000)).reverse ++
          (if thousandths q < 0 then ['-'] else []).reverse) := by
    simp [List.reverse_append, List.append_assoc]
  rw [hrev]
  simp only [digitChar_isDigit, Bool.true_and, Bool.and_eq_true, decide_eq_true_eq]
  refine ⟨by decide, ?_⟩
  refine noDot_append (noDot_reverse (noDot_of_all_digit (natChars_all_digit _))) ?_
  by_cases hn : thousandths q < 0
  · rw [if_pos hn]
    decide
  · rw [if_neg hn]
    rfl

theorem noDot_intChars (i : Int) : noDot (intChars i) = true := by
  rw [intChars]
  refine noDot_append ?_ (noDot_of_all_digit (natChars_all_digit _))
  by_cases hn : i < 0
  · rw [if_pos hn]; decide
  · rw [if_neg hn]; rfl

/-- Digit-range arithmetic for C7: truncating each endpoint to microseconds
before subtracting stays within one microsecond of truncating the
difference. -/
theorem trunc_diff_bounds (s e : Int) (hs : 0 ≤ s) (hse : s ≤ e) :
    (e - s).tdiv 1000 ≤ e.tdiv 1000 - s.tdiv 1000 ∧
      e.tdiv 1000 - s.tdiv 1000 ≤ (e - s).tdiv 1000 + 1 := by
  obtain ⟨sn, rfl⟩ := Int.eq_ofNat_of_zero_le hs
  obtain ⟨en, rfl⟩ := Int.eq_ofNat_of_zero_le (le_trans hs hse)
  have hle : sn ≤ en := by exact_mod_cast hse
  obtain ⟨d, rfl⟩ := Nat.exists_eq_add_of_le hle
  have h1 : ((sn + d : Nat) : Int) - (sn : Int) = (d : Nat) := by push_cast; ring
  rw [h1]
  have h2 : ∀ m : Nat, ((m : Nat) : Int).tdiv 1000 = ((m / 1000 : Nat) : Int) := by
    intro m
    rfl
  rw [h2, h2, h2]
  have h3 : (sn + d) / 1000 = sn / 1000 + d / 1000 + if 1000 ≤ sn % 1000 + d % 1000 then 1 else 0 :=
    Nat.add_div (by omega)
  have h4 : sn / 1000 ≤ (sn + d) / 1000 := Nat.div_le_div_right (by omega)
  constructor
  · by_cases hc : 1000 ≤ sn % 1000 + d % 1000 <;> simp [hc] at h3 <;> omega
  · by_cases hc : 1000 ≤ sn % 1000 + d % 1000 <;> simp [hc] at h3 <;> omega

/-! ### Shared helpers stated at the level of the claims -/

theorem writeProfile_none {st : SinkState} (r : ProfileResult)
    (h : st.currentSession = none) : writeProfile r st = st := by
  rw [writeProfile, h]
  rfl

theorem beginSession_trace_open (name path old p : String) (ok : Bool) (st : SinkState)
    (hcur : st.currentSession = some old) (hop : st.openPath = some p) :
    (beginSession name path ok st).trace =
      st.trace ++
        ([Effect.logW (beginWarnMsg name old), Effect.fsWrite (some p) footerStr,
          Effect.fsClose, Effect.fsOpen path ok] ++
          (if ok then [Effect.fsWrite (some path) headerStr]
           else [Effect.logE (openErrMsg path)])) ∧
    (beginSession name path ok st).currentSession = (if ok then some name else none) ∧
    (beginSession name path ok st).openPath = (if ok then some path else none) := by
  cases ok with
  | true =>
    rw [beginSession, hcur]
    simp [internalEndSession, doLogW, doWrite, doClose, doOpen, doLogE, hcur, hop,
      List.append_assoc]
  | false =>
    rw [beginSession, hcur]
    simp [internalEndSession, doLogW, doWrite, doClose, doOpen, doLogE, hcur, hop,
      List.append_assoc]

theorem beginSession_fail (name path : String) (st : SinkState) :
    (beginSession name path false st).currentSession = none ∧
      (beginSession name path false st).trace =
        st.trace ++
          (match st.currentSession with
           | some old =>
             [Effect.logW (beginWarnMsg name old), Effect.fsWrite st.openPath footerStr,
               Effect.fsClose, Effect.fsOpen path false, Effect.logE (openErrMsg path)]
           | none => [Effect.fsOpen path false, Effect.logE (openErrMsg path)]) := by
  cases hcur : st.currentSession with
  | none =>
    rw [beginSession, hcur]
    constructor
    · simp [doOpen, doLogE, hcur]
    · simp [doOpen, doLogE, List.append_assoc]
  | some old =>
    rw [beginSession, hcur]
    constructor
    · simp [internalEndSession, doLogW, doWrite, doClose, doOpen, doLogE, hcur]
    · simp [internalEndSession, doLogW, doWrite, doClose, doOpen, doLogE, hcur,
        List.append_assoc]

theorem timerRun_stops (n : Nat) (b : Bool) (k : Nat) :
    (List.replicate n TimerEvent.stopCall).foldl timerStep (b, k) =
      (if n = 0 then b else true, k + n) := by
  induction n generalizing b k with
  | zero => simp
  | succ m ih =>
    rw [List.replicate_succ, List.foldl_cons]
    show (List.replicate m TimerEvent.stopCall).foldl timerStep (true, k + 1) = _
    rw [ih true (k + 1)]
    cases m with
    | zero => simp
    | succ m' => simp [Nat.add_assoc, Nat.add_comm 1 (m' + 1)]

theorem escapeName_good {s : String}
    (h : ∀ c ∈ s.data, c = dquote ∨ (c ≠ bslash ∧ 32 ≤ c.toNat)) :
    (escapeName s).data.all jsonSafeChar = true :=
  escapeName_safe (fun c hc => (h c hc).elim
    (fun e => e ▸ ⟨by decide, by decide⟩) id)

theorem escapeName_no_dquote {s : String}
    (h : (escapeName s).data.all jsonSafeChar = true) : dquote ∉ (escapeName s).data := by
  intro hmem
  have := List.all_eq_true.mp h dquote hmem
  simp [jsonSafeChar] at this

/-! ### The claims -/

/-- C1 (counterexample): two explicit `Stop()` calls followed by destruction
forward two records, not one — `InstrumentationTimer::Stop` does not check
`m_Stopped`, so an explicit `Stop()` on an already-stopped timer reports
again; the claim's "calling Stop() when the timer is already stopped is a
no-op" is false. -/
theorem c1_counterexample :
    (timerRun (List.replicate 2 TimerEvent.stopCall ++ [TimerEvent.destroy])).2 = 2 ∧
      (2 : Nat) ≠ 1 := by
  decide

/-- C1 (amended): only the destructor checks `m_Stopped`; `Stop()` itself
always forwards one record.  Hence `n` explicit `Stop()` calls followed by
destruction forward `max n 1` records: exactly one when `Stop()` is called at
most once explicitly (the explicit-then-implicit-at-destruction pattern the
spec highlights), but `n` records for `n ≥ 2` explicit calls. -/
theorem c1_timer_records (n : Nat) :
    (timerRun (List.replicate n TimerEvent.stopCall ++ [TimerEvent.destroy])).2 =
      max n 1 := by
  rw [timerRun, List.foldl_append, timerRun_stops]
  cases n with
  | zero => simp [timerStep]
  | succ m =>
    simp [timerStep]

/-- C2 (counterexample): for the span record with name `"f"`, start `0` and
elapsed `5`, the serialized `dur` field is the bare integer `5` — not a
fixed-point number with three digits after the decimal point — while `ts` is
`0.000`; the claim that both `dur` and `ts` carry three decimals is false. -/
theorem c2_counterexample :
    hasFixed3Shape (durStr ⟨"f", 0, 5, 1⟩) = false ∧
      durStr ⟨"f", 0, 5, 1⟩ = "5" ∧
      tsStr ⟨"f", 0, 5, 1⟩ = "0.000" ∧
      profileJson ⟨"f", 0, 5, 1⟩ =
        ",\x7b\"cat\":\"function\",\"dur\":5,\"name\":\"f\",\"ph\":\"X\",\"pid\":0,\"tid\":1,\"ts\":0.000\x7d" := by
  decide

/-- C2 (amended): in every span record, the `ts` field is rendered in fixed
notation with exactly three digits after the decimal point, but the `dur`
field is the integer `ElapsedTime.count()` rendered with no decimal point at
all (`std::fixed`/`setprecision` only affect floating-point insertions). -/
theorem c2_field_formats (r : ProfileResult) :
    hasFixed3Shape (tsStr r) = true ∧ noDot (durStr r).data = true :=
  ⟨fmtFixed3_shape r.Start, noDot_intChars r.ElapsedTime⟩

/-- C3: a `WriteProfile` call made while no session is open changes nothing —
no file is touched, nothing is logged, no error is signalled; the sink state
(including the file system and the effect trace) is exactly what it was. -/
theorem c3_writeProfile_noop (r : ProfileResult) (st : SinkState)
    (h : st.currentSession = none) : writeProfile r st = st :=
  writeProfile_none r h

/-- Witness for C3 at the freshly constructed sink. -/
theorem c3_witness :
    initState.currentSession = none ∧
      writeProfile ⟨"w", 0, 1, 2⟩ initState = initState :=
  ⟨rfl, c3_writeProfile_noop ⟨"w", 0, 1, 2⟩ initState rfl⟩

/-- C4: `BeginSession` while a session `old` is open on stream `p` first logs
exactly one warning naming `old`, then performs the same teardown as
`EndSession` (epilogue written to `p`, stream closed), and only then opens the
new path and (on success) writes the prologue — the effect trace extension
shows this order and contains exactly one warning. -/
theorem c4_begin_reentrant (name path old p : String) (ok : Bool) (st : SinkState)
    (hcur : st.currentSession = some old) (hop : st.openPath = some p) :
    (beginSession name path ok st).trace =
      st.trace ++
        ([Effect.logW (beginWarnMsg name old), Effect.fsWrite (some p) footerStr,
          Effect.fsClose, Effect.fsOpen path ok] ++
          (if ok then [Effect.fsWrite (some path) headerStr]
           else [Effect.logE (openErrMsg path)])) ∧
    ((beginSession name path ok st).trace.drop st.trace.length).countP
      (fun e => match e with | Effect.logW _ => true | _ => false) = 1 := by
  obtain ⟨h1, _, _⟩ := beginSession_trace_open name path old p ok st hcur hop
  refine ⟨h1, ?_⟩
  rw [h1, List.drop_left]
  cases ok <;> rfl

/-- Witness for C4: a second `BeginSession` on a sink that already has an open
session. -/
theorem c4_witness :
    (beginSession "A" "f1" true initState).currentSession = some "A" ∧
      (beginSession "A" "f1" true initState).openPath = some "f1" ∧
      ((beginSession "B" "f2" true (beginSession "A" "f1" true initState)).trace =
        (beginSession "A" "f1" true initState).trace ++
          ([Effect.logW (beginWarnMsg "B" "A"), Effect.fsWrite (some "f1") footerStr,
            Effect.fsClose, Effect.fsOpen "f2" true] ++
            [Effect.fsWrite (some "f2") headerStr]) ∧
        ((beginSession "B" "f2" true (beginSession "A" "f1" true initState)).trace.drop
          (beginSession "A" "f1" true initState).trace.length).countP
          (fun e => match e with | Effect.logW _ => true | _ => false) = 1) := by
  refine ⟨by decide, by decide, ?_⟩
  have h := c4_begin_reentrant "B" "f2" "A" "f1" true
    (beginSession "A" "f1" true initState) (by decide) (by decide)
  simpa using h

/-- C5: when the destination cannot be opened, `BeginSession` logs exactly the
open-failure error as its last effect, leaves no session open, and every
subsequent sequence of `WriteProfile` calls is a complete no-op; nothing else
is signalled to the caller. -/
theorem c5_begin_fail (name path : String) (st : SinkState) :
    (beginSession name path false st).currentSession = none ∧
    (beginSession name path false st).trace =
      st.trace ++
        (match st.currentSession with
         | some old =>
           [Effect.logW (beginWarnMsg name old), Effect.fsWrite st.openPath footerStr,
             Effect.fsClose, Effect.fsOpen path false, Effect.logE (openErrMsg path)]
         | none => [Effect.fsOpen path false, Effect.logE (openErrMsg path)]) ∧
    ∀ rs : List ProfileResult,
      rs.foldl (fun s r => writeProfile r s) (beginSession name path false st) =
        beginSession name path false st := by
  obtain ⟨h1, h2⟩ := beginSession_fail name path st
  refine ⟨h1, h2, ?_⟩
  intro rs
  induction rs with
  | nil => rfl
  | cons r t ih =>
    rw [List.foldl_cons, writeProfile_none r h1]
    exact ih

/-- C7 (counterexample): a timer started at 999 ns and stopped at 1001 ns
reports an elapsed time of 1 µs, while `now - start` (2 ns) truncated to
whole microseconds is 0: the code truncates each endpoint to microseconds
before subtracting rather than truncating the difference. -/
theorem c7_counterexample :
    (timerStop "x" 999 1001 3).ElapsedTime = 1 ∧
      ((1001 - 999 : Int)).tdiv 1000 = 0 ∧ (1 : Int) ≠ 0 := by
  decide

/-- C7 (amended): the reported elapsed time is the difference of the two
timestamps after each is truncated to whole microseconds
(`time_point_cast<microseconds>` on each endpoint); this lies within one
microsecond above the truncation of `now - start`.  The reported start is
`start` in (floating-point) microseconds, exactly. -/
theorem c7_stop_values (name : String) (startNs endNs : Int) (tid : Nat)
    (hs : 0 ≤ startNs) (hse : startNs ≤ endNs) :
    (timerStop name startNs endNs tid).ElapsedTime =
      endNs.tdiv 1000 - startNs.tdiv 1000 ∧
    (endNs - startNs).tdiv 1000 ≤ (timerStop name startNs endNs tid).ElapsedTime ∧
    (timerStop name startNs endNs tid).ElapsedTime ≤ (endNs - startNs).tdiv 1000 + 1 ∧
    (timerStop name startNs endNs tid).Start = (startNs : ℚ) / 1000 := by
  have h := trunc_diff_bounds startNs endNs hs hse
  exact ⟨rfl, h.1, h.2, rfl⟩

/-- Witness for C7 at start 999 ns, stop 1001 ns. -/
theorem c7_witness :
    (0 ≤ (999 : Int) ∧ (999 : Int) ≤ 1001) ∧
      ((timerStop "x" 999 1001 3).ElapsedTime =
        (1001 : Int).tdiv 1000 - (999 : Int).tdiv 1000 ∧
      ((1001 : Int) - 999).tdiv 1000 ≤ (timerStop "x" 999 1001 3).ElapsedTime ∧
      (timerStop "x" 999 1001 3).ElapsedTime ≤ ((1001 : Int) - 999).tdiv 1000 + 1 ∧
      (timerStop "x" 999 1001 3).Start = ((999 : Int) : ℚ) / 1000) :=
  ⟨⟨by decide, by decide⟩, c7_stop_values "x" 999 1001 3 (by decide) (by decide)⟩

/-- C10: if a session `old` is open (stream on `p`) and the new destination
cannot be opened, the prior session has already been finalized — epilogue
written to `p`, stream closed, session destroyed — before the failed open and
the error log, so the prior session is closed and lost although no new
session starts. -/
theorem c10_fail_not_atomic (name path old p : String) (st : SinkState)
    (hcur : st.currentSession = some old) (hop : st.openPath = some p) :
    (beginSession name path false st).trace =
      st.trace ++
        [Effect.logW (beginWarnMsg name old), Effect.fsWrite (some p) footerStr,
          Effect.fsClose, Effect.fsOpen path false, Effect.logE (openErrMsg path)] ∧
    (beginSession name path false st).currentSession = none ∧
    (beginSession name path false st).openPath = none := by
  obtain ⟨h1, h2, h3⟩ := beginSession_trace_open name path old p false st hcur hop
  refine ⟨?_, by simpa using h2, by simpa using h3⟩
  rw [h1]
  rfl

/-- Witness for C10: open a session on `g1`, then fail to begin one on `g2`. -/
theorem c10_witness :
    (beginSession "A" "g1" true initState).currentSession = some "A" ∧
      (beginSession "A" "g1" true initState).openPath = some "g1" ∧
      ((beginSession "B" "g2" false (beginSession "A" "g1" true initState)).trace =
        (beginSession "A" "g1" true initState).trace ++
          [Effect.logW (beginWarnMsg "B" "A"), Effect.fsWrite (some "g1") footerStr,
            Effect.fsClose, Effect.fsOpen "g2" false, Effect.logE (openErrMsg "g2")] ∧
       (beginSession "B" "g2" false (beginSession "A" "g1" true initState)).currentSession =
          none ∧
       (beginSession "B" "g2" false (beginSession "A" "g1" true initState)).openPath =
          none) := by
  refine ⟨by decide, by decide, ?_⟩
  exact c10_fail_not_atomic "B" "g2" "A" "g1"
    (beginSession "A" "g1" true initState) (by decide) (by decide)

/-- C6: the serialized record replaces every double quote in the span name
with a single quote and performs no other character escaping; for a name
whose only JSON-problematic characters are double quotes (no backslash, no
control character), the emitted record object is syntactically valid JSON,
and what `WriteProfile` appends is exactly a comma followed by that object. -/
theorem c6_escape_valid (r : ProfileResult)
    (h : ∀ c ∈ r.Name.data, c = dquote ∨ (c ≠ bslash ∧ 32 ≤ c.toNat)) :
    (escapeName r.Name).data =
      r.Name.data.map (fun c => if c = dquote then squote else c) ∧
    dquote ∉ (escapeName r.Name).data ∧
    profileJson r = "," ++ recordObj r ∧
    jsonValid (recordObj r) = true := by
  have hsafe := escapeName_good h
  exact ⟨rfl, escapeName_no_dquote hsafe, rfl, jsonValid_recordObj r hsafe⟩

/-- Witness for C6: a span name containing a double quote. -/
theorem c6_witness :
    (∀ c ∈ (String.mk ['a', dquote, 'b']).data,
      c = dquote ∨ (c ≠ bslash ∧ 32 ≤ c.toNat)) ∧
    escapeName (String.mk ['a', dquote, 'b']) = String.mk ['a', squote, 'b'] ∧
    jsonValid (recordObj ⟨String.mk ['a', dquote, 'b'], 0, 2, 3⟩) = true :=
  ⟨by decide, by decide,
    (c6_escape_valid ⟨String.mk ['a', dquote, 'b'], 0, 2, 3⟩ (by decide)).2.2.2⟩

/-- C8 (counterexample): a span name containing a lone backslash (`a\x`)
produces, after a clean `BeginSession`/`WriteProfile`/`EndSession` run, an
output file that is not valid JSON (`\x` is not a JSON escape), so "this
content is valid JSON" fails without a restriction on span names. -/
theorem c8_counterexample :
    ((lookFS "t.json"
        (run [Cmd.beginS "S" "t.json" true,
          Cmd.write ⟨String.mk ['a', bslash, 'x'], 0, 5, 1⟩, Cmd.endS]).files).map
      jsonValid) = some false := by
  decide

/-- C8 (amended): after any command sequence ending in `EndSession`, every
file the sink produced consists of exactly one prologue, the serialized span
records in order, and exactly one epilogue; if moreover every span name
written contains no backslash and no control character, that content is valid
JSON. -/
theorem c8_file_shape (cmds : List Cmd) (p content : String)
    (hl : lookFS p (run (cmds ++ [Cmd.endS])).files = some content) :
    (∃ rs : List ProfileResult, content = headerStr ++ (recsJoin rs ++ footerStr)) ∧
      ((∀ r : ProfileResult, Cmd.write r ∈ cmds →
          ∀ c ∈ r.Name.data, c ≠ bslash ∧ 32 ≤ c.toNat) →
        jsonValid content = true) := by
  have hfin : (run (cmds ++ [Cmd.endS])).currentSession = none := by
    rw [run_append_endS]
    exact internalEnd_session_none _
  have hinvT : InvP (fun _ => True) (run (cmds ++ [Cmd.endS])) := by
    rw [run]
    exact invP_run _ initState (fun _ _ => trivial) (invP_init _)
  have hopn : (run (cmds ++ [Cmd.endS])).openPath = none := by
    have hiff := hinvT.1
    cases hq : (run (cmds ++ [Cmd.endS])).openPath with
    | none => rfl
    | some q =>
      rw [hq, hfin] at hiff
      simp at hiff
  constructor
  · obtain ⟨rs, hshape, _⟩ := hinvT.2.2 p content (by rw [hopn]; simp) hl
    exact ⟨rs, hshape⟩
  · intro hgood
    have hinvG : InvP (fun r => ∀ c ∈ r.Name.data, c ≠ bslash ∧ 32 ≤ c.toNat)
        (run (cmds ++ [Cmd.endS])) := by
      rw [run]
      refine invP_run _ initState ?_ (invP_init _)
      intro r hr
      rcases List.mem_append.mp hr with hr | hr
      · exact hgood r hr
      · cases List.mem_singleton.mp hr
    obtain ⟨rs, hshape, hall⟩ := hinvG.2.2 p content (by rw [hopn]; simp) hl
    rw [hshape]
    exact jsonValid_file rs (fun x hx => escapeName_safe (hall x hx))

/-- Witness for C8: one benign span written between `BeginSession` and
`EndSession`. -/
theorem c8_witness :
    lookFS "w.json"
        (run ([Cmd.beginS "S" "w.json" true, Cmd.write ⟨"Load", 0, 5, 1⟩] ++
          [Cmd.endS])).files =
      some (headerStr ++ (recsJoin [⟨"Load", 0, 5, 1⟩] ++ footerStr)) ∧
    (∃ rs : List ProfileResult,
      headerStr ++ (recsJoin [(⟨"Load", 0, 5, 1⟩ : ProfileResult)] ++ footerStr) =
        headerStr ++ (recsJoin rs ++ footerStr)) ∧
    jsonValid (headerStr ++ (recsJoin [(⟨"Load", 0, 5, 1⟩ : ProfileResult)] ++ footerStr)) =
      true := by
  have hl : lookFS "w.json"
      (run ([Cmd.beginS "S" "w.json" true, Cmd.write ⟨"Load", 0, 5, 1⟩] ++
        [Cmd.endS])).files =
      some (headerStr ++ (recsJoin [⟨"Load", 0, 5, 1⟩] ++ footerStr)) := by decide
  have h := c8_file_shape [Cmd.beginS "S" "w.json" true, Cmd.write ⟨"Load", 0, 5, 1⟩]
    "w.json" (headerStr ++ (recsJoin [⟨"Load", 0, 5, 1⟩] ++ footerStr)) hl
  refine ⟨hl, h.1, h.2 ?_⟩
  intro r hr
  have : r = ⟨"Load", 0, 5, 1⟩ := by
    rcases List.mem_cons.mp hr with hr | hr
    · cases hr
    · rcases List.mem_cons.mp hr with hr | hr
      · exact (Cmd.write.inj hr.symm).symm ▸ rfl
      · cases List.not_mem_nil _ hr
  rw [this]
  decide
